import Mathlib

/-!
Verification of the decision-tree classifier in `Algorithm/DecisionTree.hpp`.

The C++ code is shallowly embedded as follows.  Feature values and
thresholds (C++ `double`, used only for copying and `<=` comparisons) and
the entropy arithmetic (`std::log2`) are modelled by exact real numbers
`ℝ`; labels (C++ `int`) by `ℤ`; datasets by `List (List ℝ)` paired with a
parallel `List ℤ` of labels.  The `Node` struct, a tagged union whose leaf
variant carries a label and whose internal variant carries a feature
index, a threshold and two non-null children, is modelled by an inductive
type.  `buildTree`'s recursion (whose termination the C++ source does not
guarantee) is modelled with an explicit fuel parameter: `none` means the
C++ program does not return normally (unbounded recursion, or the
undefined `labels[0]` read on an empty vector, which is modelled by
`List.head?` returning `none`).  `std::map<int,int>` iteration, which
visits keys in increasing order, is modelled by sorting the distinct
labels with `insertionSort`.
-/

open scoped Classical

/-- A tree node: either a leaf carrying a class label, or an internal
decision node carrying a feature index, a threshold and two children
(`Node` in `DecisionTree.hpp`; the C++ sentinel fields of the unused
variant are dropped, and the always-non-null children of an internal node
become constructor arguments). -/
inductive Node where
  | leaf (label : ℤ)
  | internal (featureIndex : ℕ) (threshold : ℝ) (left : Node) (right : Node)

/-- Mirrors `DecisionTree::isPure`: scan indices `1, 2, ...` and return
`false` on the first label different from `labels[0]`; the loop over an
empty or singleton list returns `true`. -/
def isPure (labels : List ℤ) : Bool :=
  match labels with
  | [] => true
  | l :: rest => rest.all (fun x => x == l)

/-- The contents of the C++ `std::map<int, int> labelCounts` built by
`calculateEntropy` and `majorityLabel`, in iteration order: the distinct
labels in increasing key order, each paired with its number of occurrences. -/
def labelCounts (labels : List ℤ) : List (ℤ × ℕ) :=
  (List.insertionSort (fun a b => a ≤ b) labels.dedup).map (fun l => (l, labels.count l))

/-- Mirrors `DecisionTree::calculateEntropy`: starting from `0.0`, for each
map entry `(label, count)` subtract `p * log2 p` where
`p = count / labels.size()`. -/
noncomputable def calculateEntropy (labels : List ℤ) : ℝ :=
  (labelCounts labels).foldl
    (fun entropy kv =>
      entropy - ((kv.2 : ℝ) / (labels.length : ℝ)) * Real.logb 2 ((kv.2 : ℝ) / (labels.length : ℝ)))
    0

/-- The specification's entropy formula, written the way the spec states
it: `entropy(L) = -Σ_c p_c · log2(p_c)` over the distinct classes `c`
present in `L`, with `p_c` the fraction of `L` carrying class `c`. -/
noncomputable def specEntropy (labels : List ℤ) : ℝ :=
  -∑ c ∈ labels.toFinset,
      ((labels.count c : ℝ) / (labels.length : ℝ)) * Real.logb 2 ((labels.count c : ℝ) / (labels.length : ℝ))

/-- Mirrors `DecisionTree::calculateInformationGain`. -/
noncomputable def calculateInformationGain (parentLabels leftLabels rightLabels : List ℤ) : ℝ :=
  calculateEntropy parentLabels -
    (((leftLabels.length : ℝ) / (parentLabels.length : ℝ)) * calculateEntropy leftLabels +
     ((rightLabels.length : ℝ) / (parentLabels.length : ℝ)) * calculateEntropy rightLabels)

/-- Mirrors `DecisionTree::splitLabels`: walk rows `i` in order, sending
`labels[i]` left when `data[i][featureIndex] <= threshold` and right
otherwise.  The simultaneous walk over `data` and `labels` is the zip of
the two lists. -/
noncomputable def splitLabels (data : List (List ℝ)) (labels : List ℤ) (featureIndex : ℕ) (threshold : ℝ) :
    List ℤ × List ℤ :=
  ((data.zip labels).filter (fun r => decide (r.1.getD featureIndex 0 ≤ threshold)) |>.map Prod.snd,
   (data.zip labels).filter (fun r => decide (¬ r.1.getD featureIndex 0 ≤ threshold)) |>.map Prod.snd)

/-- Mirrors `DecisionTree::splitData`: the same row-wise partition as
`splitLabels`, keeping both the data row and its label on each side. -/
noncomputable def splitData (data : List (List ℝ)) (labels : List ℤ) (featureIndex : ℕ) (threshold : ℝ) :
    List (List ℝ) × List ℤ × List (List ℝ) × List ℤ :=
  let lefts := (data.zip labels).filter (fun r => decide (r.1.getD featureIndex 0 ≤ threshold))
  let rights := (data.zip labels).filter (fun r => decide (¬ r.1.getD featureIndex 0 ≤ threshold))
  (lefts.map Prod.fst, lefts.map Prod.snd, rights.map Prod.fst, rights.map Prod.snd)

/-- Mirrors `DecisionTree::majorityLabel`: iterate over the count map in
increasing key order, starting from `(labels[0], 0)` and replacing the
incumbent exactly when a strictly larger count appears.  The C++
`labels[0]` read on an empty vector is undefined; this is modelled by
returning `none` for an empty list. -/
def majorityLabel (labels : List ℤ) : Option ℤ :=
  match labels with
  | [] => none
  | l0 :: _ =>
      some (((labelCounts labels).foldl
        (fun best kv => if best.2 < kv.2 then kv else best) (l0, 0)).1)

/-- The feature count `data[0].size()` used as the bound of the outer
loop of `buildTree`'s split search. -/
def featureCount (data : List (List ℝ)) : ℕ := (data.headD []).length

/-- The candidate `(feature, threshold)` pairs examined by `buildTree`,
in enumeration order: features (outer loop) over `[0, data[0].size())`,
samples (inner loop) over `data` in order, with threshold `sample[feature]`. -/
def candidates (data : List (List ℝ)) : List (ℕ × ℝ) :=
  (List.range (featureCount data)).flatMap (fun f => data.map (fun sample => (f, sample.getD f 0)))

/-- The information gain `buildTree` computes for one candidate: split the
current labels at the candidate and apply `calculateInformationGain`. -/
noncomputable def gainAt (data : List (List ℝ)) (labels : List ℤ) (f : ℕ) (t : ℝ) : ℝ :=
  calculateInformationGain labels (splitLabels data labels f t).1 (splitLabels data labels f t).2

/-- Mirrors the split-search loops of `DecisionTree::buildTree`, lines
61-77: fold over the candidates, tracking `(bestFeature, bestThreshold,
bestInfoGain)` initialised to `(-1, 0.0, 0.0)` and replacing the incumbent
exactly when `infoGain > bestInfoGain` (written here as
`best.2.2 < infoGain`). -/
noncomputable def chooseBest (data : List (List ℝ)) (labels : List ℤ) : ℤ × ℝ × ℝ :=
  (candidates data).foldl
    (fun best c =>
      if best.2.2 < calculateInformationGain labels (splitLabels data labels c.1 c.2).1 (splitLabels data labels c.1 c.2).2
      then ((c.1 : ℤ), c.2, calculateInformationGain labels (splitLabels data labels c.1 c.2).1 (splitLabels data labels c.1 c.2).2)
      else best)
    (-1, 0, 0)

/-- The candidate list enriched with the gain of each candidate, in the
same order; `chooseBest` is the first-strict-maximum fold over this list. -/
noncomputable def scoredCandidates (data : List (List ℝ)) (labels : List ℤ) : List (ℤ × ℝ × ℝ) :=
  (candidates data).map (fun c => ((c.1 : ℤ), c.2, gainAt data labels c.1 c.2))

/-- Mirrors `DecisionTree::buildTree`, with an explicit fuel parameter
bounding the recursion depth.  `none` models a C++ execution that does not
return normally: fuel exhaustion models the unbounded recursion of the
source, and the `labels.head?` / `majorityLabel` `none` cases model the
undefined `labels[0]` read on an empty label vector. -/
noncomputable def buildTree : ℕ → List (List ℝ) → List ℤ → Option Node
  | 0, _, _ => none
  | fuel + 1, data, labels =>
    if isPure labels then
      labels.head?.map Node.leaf
    else
      let best := chooseBest data labels
      if best.1 = -1 then
        (majorityLabel labels).map Node.leaf
      else
        let parts := splitData data labels best.1.toNat best.2.1
        match buildTree fuel parts.1 parts.2.1, buildTree fuel parts.2.2.1 parts.2.2.2 with
        | some leftNode, some rightNode =>
            some (Node.internal best.1.toNat best.2.1 leftNode rightNode)
        | _, _ => none

/-- Mirrors `DecisionTree::fit`: the stored `root` is the tree built from
the full dataset. -/
noncomputable def fit (fuel : ℕ) (data : List (List ℝ)) (labels : List ℤ) : Option Node :=
  buildTree fuel data labels

/-- Mirrors `DecisionTree::predictRecursive`: return the label at a leaf;
at an internal node descend left when `sample[featureIndex] <= threshold`
and right otherwise. -/
noncomputable def predictRecursive : Node → List ℝ → ℤ
  | Node.leaf label, _ => label
  | Node.internal f t left right, sample =>
      if sample.getD f 0 ≤ t then predictRecursive left sample
      else predictRecursive right sample

/-- Mirrors `DecisionTree::predict`: traverse from the root. -/
noncomputable def predict (root : Node) (sample : List ℝ) : ℤ :=
  predictRecursive root sample

/-- Depth of a tree: the maximum number of internal nodes on a
root-to-leaf path. -/
def depth : Node → ℕ
  | Node.leaf _ => 0
  | Node.internal _ _ left right => 1 + max (depth left) (depth right)

/-- The traversal of `predictRecursive`, instrumented with a bound on the
number of threshold comparisons it may perform: each visit to an internal
node consumes one unit; `none` means the bound was hit before a leaf. -/
noncomputable def predictSteps : ℕ → Node → List ℝ → Option ℤ
  | _, Node.leaf label, _ => some label
  | 0, Node.internal _ _ _ _, _ => none
  | n + 1, Node.internal f t left right, sample =>
      if sample.getD f 0 ≤ t then predictSteps n left sample
      else predictSteps n right sample

/-- First-strict-maximum fold: folding `if score b < score a then a else b`
over a list either leaves the initial accumulator untouched (when no
element's score strictly exceeds it) or returns the first element of the
list achieving the overall maximum score, that maximum being strictly
above the initial score. -/
theorem foldl_best_spec {α β : Type} [LinearOrder β] (score : α → β)
    (step : α → α → α) (hstep : ∀ b a, step b a = if score b < score a then a else b) :
    ∀ (l : List α) (a0 : α),
    (l.foldl step a0 = a0 ∧ ∀ a ∈ l, score a ≤ score a0)
    ∨ (∃ i : Fin l.length,
        l.foldl step a0 = l.get i
        ∧ score a0 < score (l.get i)
        ∧ (∀ a ∈ l, score a ≤ score (l.get i))
        ∧ ∀ j : Fin l.length, (j : ℕ) < (i : ℕ) → score (l.get j) < score (l.get i)) := by
  intro l
  induction l with
  | nil =>
    intro a0
    left
    exact ⟨rfl, by simp⟩
  | cons c l ih =>
    intro a0
    rw [List.foldl_cons]
    by_cases h : score a0 < score c
    · have hs : step a0 c = c := by rw [hstep]; exact if_pos h
      rw [hs]
      rcases ih c with ⟨heq, hall⟩ | ⟨i, heq, hgt, hall, hfirst⟩
      · right
        refine ⟨⟨0, by simp⟩, heq, h, ?_, ?_⟩
        · intro a ha
          rcases List.mem_cons.mp ha with rfl | ha
          · exact le_refl _
          · exact hall a ha
        · intro j hj
          exact absurd hj (Nat.not_lt_zero _)
      · right
        refine ⟨⟨(i : ℕ) + 1, by simp only [List.length_cons]; exact Nat.succ_lt_succ i.isLt⟩, ?_, ?_, ?_, ?_⟩
        · simpa using heq
        · simp only [List.get_cons_succ]
          exact h.trans hgt
        · intro a ha
          rcases List.mem_cons.mp ha with rfl | ha
          · simpa using le_of_lt hgt
          · simpa using hall a ha
        · intro j hj
          rcases j with ⟨j, hjl⟩
          cases j with
          | zero => simpa using hgt
          | succ j =>
            have hj2 : j < (i : ℕ) := by simpa using hj
            simpa using hfirst ⟨j, by simpa using Nat.lt_of_succ_lt_succ hjl⟩ hj2
    · have hs : step a0 c = a0 := by rw [hstep]; exact if_neg h
      rw [hs]
      have hc : score c ≤ score a0 := not_lt.mp h
      rcases ih a0 with ⟨heq, hall⟩ | ⟨i, heq, hgt, hall, hfirst⟩
      · left
        refine ⟨heq, ?_⟩
        intro a ha
        rcases List.mem_cons.mp ha with rfl | ha
        · exact hc
        · exact hall a ha
      · right
        refine ⟨⟨(i : ℕ) + 1, by simp only [List.length_cons]; exact Nat.succ_lt_succ i.isLt⟩, ?_, ?_, ?_, ?_⟩
        · simpa using heq
        · simp only [List.get_cons_succ]
          exact hgt
        · intro a ha
          rcases List.mem_cons.mp ha with rfl | ha
          · simpa using hc.trans (le_of_lt hgt)
          · simpa using hall a ha
        · intro j hj
          rcases j with ⟨j, hjl⟩
          cases j with
          | zero => simpa using lt_of_le_of_lt hc hgt
          | succ j =>
            have hj2 : j < (i : ℕ) := by simpa using hj
            simpa using hfirst ⟨j, by simpa using Nat.lt_of_succ_lt_succ hjl⟩ hj2

/-- `chooseBest` is the first-strict-maximum fold over the scored
candidate list. -/
theorem chooseBest_eq_fold (data : List (List ℝ)) (labels : List ℤ) :
    chooseBest data labels =
      (scoredCandidates data labels).foldl
        (fun best c => if best.2.2 < c.2.2 then c else best) ((-1 : ℤ), (0 : ℝ), (0 : ℝ)) := by
  unfold chooseBest scoredCandidates
  rw [List.foldl_map]
  rfl

/-- Characterisation of the split search: either no candidate has gain
strictly above the initial `0.0` tracker and the fold returns the
`(-1, 0.0, 0.0)` sentinel, or the result is the earliest-enumerated
candidate achieving the (strictly positive) maximum gain. -/
theorem chooseBest_cases (data : List (List ℝ)) (labels : List ℤ) :
    (chooseBest data labels = (-1, 0, 0) ∧ ∀ c ∈ candidates data, gainAt data labels c.1 c.2 ≤ 0)
    ∨ (∃ i : Fin (candidates data).length,
        chooseBest data labels =
          ((((candidates data).get i).1 : ℤ), ((candidates data).get i).2,
            gainAt data labels ((candidates data).get i).1 ((candidates data).get i).2)
        ∧ 0 < gainAt data labels ((candidates data).get i).1 ((candidates data).get i).2
        ∧ (∀ c ∈ candidates data,
            gainAt data labels c.1 c.2 ≤
              gainAt data labels ((candidates data).get i).1 ((candidates data).get i).2)
        ∧ ∀ j : Fin (candidates data).length, (j : ℕ) < (i : ℕ) →
            gainAt data labels ((candidates data).get j).1 ((candidates data).get j).2 <
              gainAt data labels ((candidates data).get i).1 ((candidates data).get i).2) := by
  have hlen : (scoredCandidates data labels).length = (candidates data).length := by
    simp [scoredCandidates]
  have hget : ∀ i : Fin (scoredCandidates data labels).length,
      (scoredCandidates data labels).get i =
        ((((candidates data).get ⟨(i : ℕ), Nat.lt_of_lt_of_eq i.isLt hlen⟩).1 : ℤ),
          ((candidates data).get ⟨(i : ℕ), Nat.lt_of_lt_of_eq i.isLt hlen⟩).2,
          gainAt data labels ((candidates data).get ⟨(i : ℕ), Nat.lt_of_lt_of_eq i.isLt hlen⟩).1
            ((candidates data).get ⟨(i : ℕ), Nat.lt_of_lt_of_eq i.isLt hlen⟩).2) := by
    intro i
    simp [scoredCandidates, List.get_eq_getElem, List.getElem_map]
  have hspec := foldl_best_spec (fun x : ℤ × ℝ × ℝ => x.2.2)
    (fun best c => if best.2.2 < c.2.2 then c else best)
    (by
      intro b a
      by_cases h : b.2.2 < a.2.2 <;> simp [h])
    (scoredCandidates data labels) ((-1 : ℤ), (0 : ℝ), (0 : ℝ))
  rw [← chooseBest_eq_fold] at hspec
  rcases hspec with ⟨heq, hall⟩ | ⟨i, heq, hgt, hall, hfirst⟩
  · left
    refine ⟨heq, ?_⟩
    intro c hc
    have hmem : (((c.1 : ℤ)), c.2, gainAt data labels c.1 c.2) ∈ scoredCandidates data labels := by
      simp only [scoredCandidates, List.mem_map]
      exact ⟨c, hc, rfl⟩
    simpa using hall _ hmem
  · right
    refine ⟨⟨(i : ℕ), Nat.lt_of_lt_of_eq i.isLt hlen⟩, ?_, ?_, ?_, ?_⟩
    · rw [heq, hget i]
    · have := hgt
      rw [hget i] at this
      simpa using this
    · intro c hc
      have hmem : (((c.1 : ℤ)), c.2, gainAt data labels c.1 c.2) ∈ scoredCandidates data labels := by
        simp only [scoredCandidates, List.mem_map]
        exact ⟨c, hc, rfl⟩
      have := hall _ hmem
      rw [hget i] at this
      simpa using this
    · intro j hj
      have hj2 : (j : ℕ) < (scoredCandidates data labels).length := Nat.lt_of_lt_of_eq j.isLt hlen.symm
      have := hfirst ⟨(j : ℕ), hj2⟩ hj
      rw [hget i, hget ⟨(j : ℕ), hj2⟩] at this
      simpa using this

/-- The entropy of the empty label list is `0` (the count map is empty, so
the loop body never runs). -/
theorem calculateEntropy_nil : calculateEntropy [] = 0 := by
  simp [calculateEntropy, labelCounts]

/-- If a split sends no row to the right, every row went left, so the left
label list is the whole label list. -/
theorem splitLabels_of_right_nil {data : List (List ℝ)} {labels : List ℤ} {f : ℕ} {t : ℝ}
    (hlen : labels.length ≤ data.length)
    (h : (splitLabels data labels f t).2 = []) :
    (splitLabels data labels f t).1 = labels := by
  simp only [splitLabels, List.map_eq_nil_iff] at h
  have hall : ∀ r ∈ data.zip labels, r.1.getD f 0 ≤ t := by
    intro r hr
    have := List.filter_eq_nil_iff.mp h r hr
    simpa using this
  simp only [splitLabels]
  rw [List.filter_eq_self.mpr (by intro a ha; simpa using hall a ha)]
  exact List.map_snd_zip data labels hlen

/-- If a split sends no row to the left, every row went right, so the
right label list is the whole label list. -/
theorem splitLabels_of_left_nil {data : List (List ℝ)} {labels : List ℤ} {f : ℕ} {t : ℝ}
    (hlen : labels.length ≤ data.length)
    (h : (splitLabels data labels f t).1 = []) :
    (splitLabels data labels f t).2 = labels := by
  simp only [splitLabels, List.map_eq_nil_iff] at h
  have hall : ∀ r ∈ data.zip labels, ¬ r.1.getD f 0 ≤ t := by
    intro r hr
    have := List.filter_eq_nil_iff.mp h r hr
    simpa using this
  simp only [splitLabels]
  rw [List.filter_eq_self.mpr (by intro a ha; simpa using hall a ha)]
  exact List.map_snd_zip data labels hlen

/-- A split that keeps the whole label list on the left has zero gain. -/
theorem calculateInformationGain_all_left (labels : List ℤ) :
    calculateInformationGain labels labels [] = 0 := by
  rcases labels with _ | ⟨a, l⟩
  · simp [calculateInformationGain, calculateEntropy_nil]
  · have hn : (((a :: l).length : ℕ) : ℝ) ≠ 0 := by
      simp [List.length_cons]
      positivity
    simp only [calculateInformationGain, calculateEntropy_nil, List.length_nil, Nat.cast_zero,
      zero_div, zero_mul, mul_zero, add_zero]
    rw [div_self hn]
    ring

/-- A split that keeps the whole label list on the right has zero gain. -/
theorem calculateInformationGain_all_right (labels : List ℤ) :
    calculateInformationGain labels [] labels = 0 := by
  rcases labels with _ | ⟨a, l⟩
  · simp [calculateInformationGain, calculateEntropy_nil]
  · have hn : (((a :: l).length : ℕ) : ℝ) ≠ 0 := by
      simp [List.length_cons]
      positivity
    simp only [calculateInformationGain, calculateEntropy_nil, List.length_nil, Nat.cast_zero,
      zero_div, zero_mul, mul_zero, zero_add]
    rw [div_self hn]
    ring

/-- A candidate whose right partition is empty has gain exactly `0`. -/
theorem gainAt_eq_zero_of_right_nil {data : List (List ℝ)} {labels : List ℤ} {f : ℕ} {t : ℝ}
    (hlen : labels.length ≤ data.length)
    (h : (splitLabels data labels f t).2 = []) :
    gainAt data labels f t = 0 := by
  unfold gainAt
  rw [h, splitLabels_of_right_nil hlen h]
  exact calculateInformationGain_all_left labels

/-- A candidate whose left partition is empty has gain exactly `0`. -/
theorem gainAt_eq_zero_of_left_nil {data : List (List ℝ)} {labels : List ℤ} {f : ℕ} {t : ℝ}
    (hlen : labels.length ≤ data.length)
    (h : (splitLabels data labels f t).1 = []) :
    gainAt data labels f t = 0 := by
  unfold gainAt
  rw [h, splitLabels_of_left_nil hlen h]
  exact calculateInformationGain_all_right labels

/-- When the sentinel `-1` was replaced, the selected candidate's gain is
strictly positive. -/
theorem chooseBest_selected_gain_pos (data : List (List ℝ)) (labels : List ℤ)
    (hsel : (chooseBest data labels).1 ≠ -1) :
    0 < gainAt data labels (chooseBest data labels).1.toNat (chooseBest data labels).2.1 := by
  rcases chooseBest_cases data labels with ⟨heq, _⟩ | ⟨i, heq, hgt, _, _⟩
  · rw [heq] at hsel
    simp at hsel
  · rw [heq]
    simpa [Int.toNat_natCast] using hgt

/-- A selected split sends at least one row to each side. -/
theorem selected_parts_ne_nil {data : List (List ℝ)} {labels : List ℤ}
    (hlen : labels.length ≤ data.length)
    (hsel : (chooseBest data labels).1 ≠ -1) :
    (splitLabels data labels (chooseBest data labels).1.toNat (chooseBest data labels).2.1).1 ≠ []
    ∧ (splitLabels data labels (chooseBest data labels).1.toNat (chooseBest data labels).2.1).2 ≠ [] := by
  have hg := chooseBest_selected_gain_pos data labels hsel
  constructor
  · intro h
    rw [gainAt_eq_zero_of_left_nil hlen h] at hg
    exact lt_irrefl 0 hg
  · intro h
    rw [gainAt_eq_zero_of_right_nil hlen h] at hg
    exact lt_irrefl 0 hg

/-- The two sides of a split together contain every zipped row. -/
theorem splitLabels_length_sum (data : List (List ℝ)) (labels : List ℤ) (f : ℕ) (t : ℝ) :
    (splitLabels data labels f t).1.length + (splitLabels data labels f t).2.length
      = (data.zip labels).length := by
  simp only [splitLabels, List.length_map]
  have hfun : (fun r : List ℝ × ℤ => decide (¬ r.1.getD f 0 ≤ t))
      = (fun r : List ℝ × ℤ => !decide (r.1.getD f 0 ≤ t)) := by
    funext r
    simp only [decide_not]
  rw [hfun]
  have := (List.filter_append_perm
    (fun r : List ℝ × ℤ => decide (r.1.getD f 0 ≤ t)) (data.zip labels)).length_eq
  simpa using this

/-- `splitData` produces the same label partition as `splitLabels`, and
its data partitions have the same lengths as the label partitions. -/
theorem splitData_eq (data : List (List ℝ)) (labels : List ℤ) (f : ℕ) (t : ℝ) :
    (splitData data labels f t).2.1 = (splitLabels data labels f t).1
    ∧ (splitData data labels f t).2.2.2 = (splitLabels data labels f t).2
    ∧ (splitData data labels f t).1.length = (splitLabels data labels f t).1.length
    ∧ (splitData data labels f t).2.2.1.length = (splitLabels data labels f t).2.length := by
  refine ⟨rfl, rfl, ?_, ?_⟩ <;> simp [splitData, splitLabels]

/-- Specification of `majorityLabel` on a non-empty list: it returns a
label of the list with maximal occurrence count, and among the labels
tied at the maximal count it returns the smallest, because the count map
is visited in increasing key order and an incumbent is replaced only by a
strictly larger count. -/
theorem majorityLabel_spec (labels : List ℤ) (hne : labels ≠ []) :
    ∃ m, majorityLabel labels = some m ∧ m ∈ labels
      ∧ (∀ l ∈ labels, labels.count l ≤ labels.count m)
      ∧ (∀ l ∈ labels, labels.count l = labels.count m → m ≤ l) := by
  rcases labels with _ | ⟨l0, rest⟩
  · exact absurd rfl hne
  set lbs := l0 :: rest with hlbs
  set sk := List.insertionSort (fun a b : ℤ => a ≤ b) lbs.dedup with hsk
  have hcount_mem : ∀ l ∈ lbs, (l, lbs.count l) ∈ labelCounts lbs := by
    intro l hl
    have h1 : l ∈ lbs.dedup := List.mem_dedup.mpr hl
    have h2 : l ∈ sk := (List.perm_insertionSort _ _).mem_iff.mpr h1
    exact List.mem_map_of_mem _ h2
  have hmem_count : ∀ kv ∈ labelCounts lbs, kv.1 ∈ lbs ∧ kv.2 = lbs.count kv.1 := by
    intro kv hkv
    simp only [labelCounts, List.mem_map] at hkv
    rcases hkv with ⟨l, hl, rfl⟩
    have : l ∈ lbs.dedup := (List.perm_insertionSort _ _).mem_iff.mp hl
    exact ⟨List.mem_dedup.mp this, rfl⟩
  have hsorted : List.Sorted (fun a b : ℤ => a ≤ b) sk := List.sorted_insertionSort _ _
  have hlen2 : (labelCounts lbs).length = sk.length := by
    simp only [labelCounts]
    exact List.length_map _ _
  have hspec := foldl_best_spec (fun kv : ℤ × ℕ => kv.2)
    (fun best kv => if best.2 < kv.2 then kv else best)
    (by intro b a; by_cases h : b.2 < a.2 <;> simp [h])
    (labelCounts lbs) (l0, 0)
  have hl0 : l0 ∈ lbs := by simp [hlbs]
  rcases hspec with ⟨heq, hall⟩ | ⟨i, heq, hgt, hall, hfirst⟩
  · exfalso
    have h1 := hall _ (hcount_mem l0 hl0)
    have h2 : 0 < lbs.count l0 := List.count_pos_iff.mpr hl0
    simp only at h1
    omega
  · have hi2 : (i : ℕ) < sk.length := Nat.lt_of_lt_of_eq i.isLt hlen2
    have hget : (labelCounts lbs).get i
        = (sk.get ⟨(i : ℕ), hi2⟩, lbs.count (sk.get ⟨(i : ℕ), hi2⟩)) := by
      simp [labelCounts, List.get_eq_getElem, List.getElem_map]
    refine ⟨sk.get ⟨(i : ℕ), hi2⟩, ?_, ?_, ?_, ?_⟩
    · show some (((labelCounts lbs).foldl
        (fun best kv => if best.2 < kv.2 then kv else best) (l0, 0)).1) = _
      rw [heq, hget]
    · have hm := (hmem_count _ (List.get_mem (labelCounts lbs) i i.isLt)).1
      rw [hget] at hm
      exact hm
    · intro l hl
      have h1 := hall _ (hcount_mem l hl)
      rw [hget] at h1
      simpa using h1
    · intro l hl hcnt
      rcases List.mem_iff_get.mp (hcount_mem l hl) with ⟨j, hj⟩
      by_cases hlt : (j : ℕ) < (i : ℕ)
      · exfalso
        have h1 := hfirst j hlt
        rw [hget, hj] at h1
        simp only at h1
        omega
      · have hle : (i : ℕ) ≤ (j : ℕ) := Nat.le_of_not_lt hlt
        have hj2 : (j : ℕ) < sk.length := Nat.lt_of_lt_of_eq j.isLt hlen2
        have hgetj : (labelCounts lbs).get j
            = (sk.get ⟨(j : ℕ), hj2⟩, lbs.count (sk.get ⟨(j : ℕ), hj2⟩)) := by
          simp [labelCounts, List.get_eq_getElem, List.getElem_map]
        have hkey : sk.get ⟨(j : ℕ), hj2⟩ = l := by
          have h2 := hgetj.symm.trans hj
          exact ((Prod.mk.injEq _ _ _ _).mp h2).1
        have hrel : sk.get ⟨(i : ℕ), hi2⟩ ≤ sk.get ⟨(j : ℕ), hj2⟩ :=
          hsorted.rel_get_of_le (by exact hle)
        rw [hkey] at hrel
        exact hrel

/-- `isPure` holds exactly when every label equals the first one. -/
theorem isPure_cons_iff (l : ℤ) (rest : List ℤ) :
    isPure (l :: rest) = true ↔ ∀ x ∈ rest, x = l := by
  simp [isPure, List.all_eq_true]

/-- A list containing two different labels is not pure. -/
theorem isPure_eq_false {labels : List ℤ} {a b : ℤ}
    (ha : a ∈ labels) (hb : b ∈ labels) (hab : a ≠ b) :
    isPure labels = false := by
  rcases labels with _ | ⟨l, rest⟩
  · simp at ha
  · by_contra h
    have hp : ∀ x ∈ rest, x = l :=
      (isPure_cons_iff l rest).mp (by simpa using h)
    have h1 : a = l := by
      rcases List.mem_cons.mp ha with rfl | ha2
      · rfl
      · exact hp a ha2
    have h2 : b = l := by
      rcases List.mem_cons.mp hb with rfl | hb2
      · rfl
      · exact hp b hb2
    exact hab (h1.trans h2.symm)

/-- When no candidate has strictly positive gain, the fold never replaces
the initial sentinel. -/
theorem chooseBest_of_no_gain {data : List (List ℝ)} {labels : List ℤ}
    (hno : ∀ c ∈ candidates data, gainAt data labels c.1 c.2 ≤ 0) :
    chooseBest data labels = (-1, 0, 0) := by
  rcases chooseBest_cases data labels with ⟨heq, _⟩ | ⟨i, _, hgt, _, _⟩
  · exact heq
  · exfalso
    have hmem := List.get_mem (candidates data) i i.isLt
    have := hno _ hmem
    exact absurd hgt (not_lt.mpr this)

/-- `buildTree` on a pure label list returns the leaf carrying the first
label, without any split search. -/
theorem buildTree_pure (fuel : ℕ) (data : List (List ℝ)) (labels : List ℤ)
    (h : isPure labels = true) :
    buildTree (fuel + 1) data labels = labels.head?.map Node.leaf := by
  simp [buildTree, h]

/-- `buildTree` on a non-pure label list with no positive-gain candidate
returns the majority-label leaf. -/
theorem buildTree_no_gain (fuel : ℕ) (data : List (List ℝ)) (labels : List ℤ)
    (hnp : isPure labels = false)
    (hno : ∀ c ∈ candidates data, gainAt data labels c.1 c.2 ≤ 0) :
    buildTree (fuel + 1) data labels = (majorityLabel labels).map Node.leaf := by
  have hcb := chooseBest_of_no_gain hno
  simp [buildTree, hnp, hcb]

/-- Folding repeated subtraction accumulates the negated sum. -/
theorem foldl_sub_eq {α : Type} (g : α → ℝ) :
    ∀ (l : List α) (e0 : ℝ), l.foldl (fun e x => e - g x) e0 = e0 - (l.map g).sum := by
  intro l
  induction l with
  | nil => intro e0; simp
  | cons c l ih =>
    intro e0
    simp only [List.foldl_cons, List.map_cons, List.sum_cons, ih]
    ring

/-- A list's `toFinset` is unchanged by deduplication. -/
theorem dedup_toFinset (l : List ℤ) : l.dedup.toFinset = l.toFinset := by
  ext x
  simp [List.mem_toFinset, List.mem_dedup]

/-- The iterative entropy of the source equals the specification's
summation formula. -/
theorem calculateEntropy_eq_specEntropy (labels : List ℤ) :
    calculateEntropy labels = specEntropy labels := by
  unfold calculateEntropy specEntropy
  rw [foldl_sub_eq, zero_sub, neg_inj]
  have h1 : (labelCounts labels).map
      (fun kv : ℤ × ℕ => ((kv.2 : ℝ) / (labels.length : ℝ)) * Real.logb 2 ((kv.2 : ℝ) / (labels.length : ℝ)))
      = (List.insertionSort (fun a b : ℤ => a ≤ b) labels.dedup).map
          (fun c => ((labels.count c : ℝ) / (labels.length : ℝ)) * Real.logb 2 ((labels.count c : ℝ) / (labels.length : ℝ))) := by
    simp [labelCounts, List.map_map]
  rw [h1]
  have h2 := (List.perm_insertionSort (fun a b : ℤ => a ≤ b) labels.dedup).map
    (fun c => ((labels.count c : ℝ) / (labels.length : ℝ)) * Real.logb 2 ((labels.count c : ℝ) / (labels.length : ℝ)))
  rw [h2.sum_eq]
  rw [← dedup_toFinset labels, List.sum_toFinset _ (List.nodup_dedup labels)]

/-- The entropy of a single-class label list is exactly `0`. -/
theorem calculateEntropy_replicate (l : ℤ) (n : ℕ) (hn : 0 < n) :
    calculateEntropy (List.replicate n l) = 0 := by
  rw [calculateEntropy_eq_specEntropy]
  unfold specEntropy
  have hne : n ≠ 0 := Nat.pos_iff_ne_zero.mp hn
  rw [List.toFinset_replicate_of_ne_zero hne, Finset.sum_singleton]
  have hc : (List.replicate n l).count l = n := by simp
  have hl : (List.replicate n l).length = n := List.length_replicate n l
  rw [hc, hl, div_self (Nat.cast_ne_zero.mpr hne), Real.logb_one, mul_zero, neg_zero]

/-- The entropy of a perfectly balanced two-class label list is exactly
`1`. -/
theorem calculateEntropy_balanced (a b : ℤ) (n : ℕ) (hab : a ≠ b) (hn : 0 < n) :
    calculateEntropy (List.replicate n a ++ List.replicate n b) = 1 := by
  rw [calculateEntropy_eq_specEntropy]
  unfold specEntropy
  have hne : n ≠ 0 := Nat.pos_iff_ne_zero.mp hn
  have hfin : (List.replicate n a ++ List.replicate n b).toFinset = {a, b} := by
    rw [List.toFinset_append, List.toFinset_replicate_of_ne_zero hne,
      List.toFinset_replicate_of_ne_zero hne]
    rfl
  rw [hfin, Finset.sum_pair hab]
  have hca : (List.replicate n a ++ List.replicate n b).count a = n := by
    simp [List.count_append, List.count_replicate, hab, Ne.symm hab]
  have hcb : (List.replicate n a ++ List.replicate n b).count b = n := by
    simp [List.count_append, List.count_replicate, hab, Ne.symm hab]
  have hlen : (List.replicate n a ++ List.replicate n b).length = n + n := by
    simp
  rw [hca, hcb, hlen]
  have hp : ((n : ℕ) : ℝ) / (((n + n : ℕ) : ℝ)) = (2 : ℝ)⁻¹ := by
    have hnr : ((n : ℕ) : ℝ) ≠ 0 := Nat.cast_ne_zero.mpr hne
    push_cast
    field_simp
    ring
  rw [hp, Real.logb_inv, Real.logb_self_eq_one (by norm_num)]
  norm_num

/-- Totality of tree construction: on a non-empty dataset with a parallel
label list, `buildTree` returns a tree whenever the fuel exceeds the
number of rows.  The crucial step is that a selected split always has a
strictly positive gain, hence sends at least one row to each side, so both
recursive calls see strictly fewer rows. -/
theorem buildTree_total : ∀ (fuel : ℕ) (data : List (List ℝ)) (labels : List ℤ),
    data.length = labels.length → labels ≠ [] → data.length < fuel →
    ∃ t, buildTree fuel data labels = some t := by
  intro fuel
  induction fuel with
  | zero =>
    intro data labels _ _ hfuel
    exact absurd hfuel (Nat.not_lt_zero _)
  | succ fuel ih =>
    intro data labels hlen hne hfuel
    by_cases hp : isPure labels = true
    · rw [buildTree_pure fuel data labels hp]
      rcases labels with _ | ⟨l, rest⟩
      · exact absurd rfl hne
      · exact ⟨Node.leaf l, rfl⟩
    · have hnp : isPure labels = false := by
        simpa using hp
      by_cases hsel : (chooseBest data labels).1 = -1
      · rcases majorityLabel_spec labels hne with ⟨m, hm, _, _, _⟩
        refine ⟨Node.leaf m, ?_⟩
        simp [buildTree, hnp, hsel, hm]
      · have hparts := selected_parts_ne_nil (le_of_eq hlen.symm) hsel
        obtain ⟨hsd1, hsd2, hsd3, hsd4⟩ := splitData_eq data labels
          (chooseBest data labels).1.toNat (chooseBest data labels).2.1
        have hzip : (data.zip labels).length = data.length := by
          rw [List.length_zip, hlen, min_self]
        have hsum := splitLabels_length_sum data labels
          (chooseBest data labels).1.toNat (chooseBest data labels).2.1
        have hpos1 : 0 < (splitLabels data labels
            (chooseBest data labels).1.toNat (chooseBest data labels).2.1).1.length :=
          List.length_pos.mpr hparts.1
        have hpos2 : 0 < (splitLabels data labels
            (chooseBest data labels).1.toNat (chooseBest data labels).2.1).2.length :=
          List.length_pos.mpr hparts.2
        obtain ⟨tl, htl⟩ := ih
          (splitData data labels (chooseBest data labels).1.toNat (chooseBest data labels).2.1).1
          (splitData data labels (chooseBest data labels).1.toNat (chooseBest data labels).2.1).2.1
          (by rw [hsd3, hsd1])
          (by rw [hsd1]; exact hparts.1)
          (by rw [hsd3]; omega)
        obtain ⟨tr, htr⟩ := ih
          (splitData data labels (chooseBest data labels).1.toNat (chooseBest data labels).2.1).2.2.1
          (splitData data labels (chooseBest data labels).1.toNat (chooseBest data labels).2.1).2.2.2
          (by rw [hsd4, hsd2])
          (by rw [hsd2]; exact hparts.2)
          (by rw [hsd4]; omega)
        refine ⟨Node.internal (chooseBest data labels).1.toNat (chooseBest data labels).2.1 tl tr, ?_⟩
        simp only [buildTree, hnp, Bool.false_eq_true, if_false, hsel, if_neg, ite_false]
        rw [htl, htr]

/-- The walk of `predictRecursive` reaches a leaf within `depth` threshold
comparisons: with any comparison budget of at least the tree's depth, the
instrumented traversal returns exactly the label `predictRecursive`
returns. -/
theorem predictSteps_of_depth_le : ∀ (t : Node) (n : ℕ), depth t ≤ n →
    ∀ sample : List ℝ, predictSteps n t sample = some (predictRecursive t sample) := by
  intro t
  induction t with
  | leaf l =>
    intro n _ sample
    cases n <;> rfl
  | internal f th left right ihl ihr =>
    intro n hd sample
    cases n with
    | zero =>
      exfalso
      simp [depth] at hd
    | succ m =>
      have hL : depth left ≤ m := by
        simp [depth] at hd
        omega
      have hR : depth right ≤ m := by
        simp [depth] at hd
        omega
      by_cases hc : sample.getD f 0 ≤ th
      · have h1 : predictSteps (m + 1) (Node.internal f th left right) sample
            = predictSteps m left sample := by
          simp only [predictSteps]
          rw [if_pos hc]
        have h2 : predictRecursive (Node.internal f th left right) sample
            = predictRecursive left sample := by
          simp only [predictRecursive]
          rw [if_pos hc]
        rw [h1, h2]
        exact ihl m hL sample
      · have h1 : predictSteps (m + 1) (Node.internal f th left right) sample
            = predictSteps m right sample := by
          simp only [predictSteps]
          rw [if_neg hc]
        have h2 : predictRecursive (Node.internal f th left right) sample
            = predictRecursive right sample := by
          simp only [predictRecursive]
          rw [if_neg hc]
        rw [h1, h2]
        exact ihr m hR sample

/-- Value of the base-2 logarithm at one half. -/
theorem logb_half : Real.logb 2 ((1:ℝ)/2) = -1 := by
  rw [one_div, Real.logb_inv, Real.logb_self_eq_one (by norm_num)]

/-- Value of the base-2 logarithm at one third. -/
theorem logb_third : Real.logb 2 ((1:ℝ)/3) = -Real.logb 2 3 := by
  rw [one_div, Real.logb_inv]

/-- Value of the base-2 logarithm at two thirds. -/
theorem logb_two_thirds : Real.logb 2 ((2:ℝ)/3) = 1 - Real.logb 2 3 := by
  rw [Real.logb_div (by norm_num) (by norm_num), Real.logb_self_eq_one (by norm_num)]

/-- The base-2 logarithm of `3` exceeds `1`. -/
theorem one_lt_logb23 : 1 < Real.logb 2 3 := by
  have h2 : Real.logb 2 2 < Real.logb 2 3 :=
    Real.logb_lt_logb (by norm_num) (by norm_num) (by norm_num)
  rwa [Real.logb_self_eq_one (by norm_num)] at h2

/-- The base-2 logarithm of `3` is below `2`. -/
theorem logb23_lt_two : Real.logb 2 3 < 2 := by
  have h4 : Real.logb 2 3 < Real.logb 2 4 :=
    Real.logb_lt_logb (by norm_num) (by norm_num) (by norm_num)
  have h : Real.logb 2 4 = 2 := by
    rw [show (4:ℝ) = 2 ^ (2:ℕ) by norm_num, Real.logb_pow, Real.logb_self_eq_one (by norm_num)]
    norm_num
  linarith

/-- Entropy of the boundary-scenario label list `[0,0,1,1]`. -/
theorem entropy_0011 : calculateEntropy [0,0,1,1] = 1 := by
  have h : labelCounts [0,0,1,1] = [(0,2),(1,2)] := by decide
  unfold calculateEntropy
  rw [h]
  norm_num [List.foldl]
  rw [logb_half]
  ring

/-- Entropy of the label list `[0,1,1]`. -/
theorem entropy_011 : calculateEntropy [0,1,1] = Real.logb 2 3 - 2/3 := by
  have h : labelCounts [0,1,1] = [(0,1),(1,2)] := by decide
  unfold calculateEntropy
  rw [h]
  norm_num [List.foldl]
  rw [logb_third, logb_two_thirds]
  ring

/-- Entropy of the label list `[0,0,1]`. -/
theorem entropy_001 : calculateEntropy [0,0,1] = Real.logb 2 3 - 2/3 := by
  have h : labelCounts [0,0,1] = [(0,2),(1,1)] := by decide
  unfold calculateEntropy
  rw [h]
  norm_num [List.foldl]
  rw [logb_third, logb_two_thirds]
  ring

/-- Entropy of the label list `[0,1]`. -/
theorem entropy_01 : calculateEntropy [0,1] = 1 := by
  have h : labelCounts [0,1] = [(0,1),(1,1)] := by decide
  unfold calculateEntropy
  rw [h]
  norm_num [List.foldl]
  rw [logb_half]
  ring

/-- Entropy of the pure label list `[0,0]`. -/
theorem entropy_00 : calculateEntropy [0,0] = 0 := by
  have h : labelCounts [0,0] = [(0,2)] := by decide
  unfold calculateEntropy
  rw [h]
  norm_num [List.foldl]

/-- Entropy of the pure label list `[1,1]`. -/
theorem entropy_11 : calculateEntropy [1,1] = 0 := by
  have h : labelCounts [1,1] = [(1,2)] := by decide
  unfold calculateEntropy
  rw [h]
  norm_num [List.foldl]

/-- Entropy of the singleton label list `[0]`. -/
theorem entropy_0 : calculateEntropy [0] = 0 := by
  have h : labelCounts [0] = [(0,1)] := by decide
  unfold calculateEntropy
  rw [h]
  norm_num [List.foldl]

/-- Entropy of the singleton label list `[1]`. -/
theorem entropy_1 : calculateEntropy [1] = 0 := by
  have h : labelCounts [1] = [(1,1)] := by decide
  unfold calculateEntropy
  rw [h]
  norm_num [List.foldl]

/-- Gain of the threshold-1 candidate in the boundary scenario. -/
theorem gain_t1 : calculateInformationGain [0,0,1,1] [0] [0,1,1]
    = 3/2 - (3/4) * Real.logb 2 3 := by
  unfold calculateInformationGain
  rw [entropy_0011, entropy_0, entropy_011]
  norm_num
  ring

/-- Gain of the threshold-2 candidate in the boundary scenario. -/
theorem gain_t2 : calculateInformationGain [0,0,1,1] [0,0] [1,1] = 1 := by
  unfold calculateInformationGain
  rw [entropy_0011, entropy_00, entropy_11]
  norm_num

/-- Gain of the threshold-3 candidate in the boundary scenario. -/
theorem gain_t3 : calculateInformationGain [0,0,1,1] [0,0,1] [1]
    = 3/2 - (3/4) * Real.logb 2 3 := by
  unfold calculateInformationGain
  rw [entropy_0011, entropy_001, entropy_1]
  norm_num
  ring

/-- The split of the boundary scenario at threshold 1. -/
theorem splitLabels_t1 : splitLabels [[1],[2],[3],[4]] [0,0,1,1] 0 1 = ([0], [0,1,1]) := by
  norm_num [splitLabels, List.filter, List.getD]

/-- The split of the boundary scenario at threshold 2. -/
theorem splitLabels_t2 : splitLabels [[1],[2],[3],[4]] [0,0,1,1] 0 2 = ([0,0], [1,1]) := by
  norm_num [splitLabels, List.filter, List.getD]

/-- The split of the boundary scenario at threshold 3. -/
theorem splitLabels_t3 : splitLabels [[1],[2],[3],[4]] [0,0,1,1] 0 3 = ([0,0,1], [1]) := by
  norm_num [splitLabels, List.filter, List.getD]

/-- The split of the boundary scenario at threshold 4. -/
theorem splitLabels_t4 : splitLabels [[1],[2],[3],[4]] [0,0,1,1] 0 4 = ([0,0,1,1], []) := by
  norm_num [splitLabels, List.filter, List.getD]

/-- The candidate enumeration of the boundary scenario. -/
theorem candidates_1234 : candidates [[1],[2],[3],[4]] = [(0,1),(0,2),(0,3),(0,4)] := by
  have h : List.range (featureCount [[1],[2],[3],[4]]) = [0] := by
    norm_num [featureCount]
    decide
  norm_num [candidates, h, List.getD]

/-- The split search of the boundary scenario selects feature 0 with
threshold 2 and gain 1. -/
theorem chooseBest_1234 : chooseBest [[1],[2],[3],[4]] [0,0,1,1] = (0, 2, 1) := by
  have h1 := one_lt_logb23
  have h2 := logb23_lt_two
  have c1 : ((0:ℝ) < 3/2 - 3/4 * Real.logb 2 3) = True := eq_true (by nlinarith)
  have c2 : (3/2 - 3/4 * Real.logb 2 3 < 1) = True := eq_true (by nlinarith)
  have c3 : ((1:ℝ) < 3/2 - 3/4 * Real.logb 2 3) = False := eq_false (by nlinarith)
  have c4 : ((1:ℝ) < 0) = False := by norm_num
  unfold chooseBest
  rw [candidates_1234]
  simp only [List.foldl_cons, List.foldl_nil, splitLabels_t1, splitLabels_t2, splitLabels_t3,
    splitLabels_t4, gain_t1, gain_t2, gain_t3,
    calculateInformationGain_all_left]
  norm_num [c1, c2, c3, c4]

/-- The tree built from the boundary scenario. -/
theorem buildTree_1234 : buildTree 2 [[1],[2],[3],[4]] [0,0,1,1]
    = some (Node.internal 0 2 (Node.leaf 0) (Node.leaf 1)) := by
  have hip : isPure ([0,0,1,1] : List ℤ) = false := by decide
  have hsd : splitData [[1],[2],[3],[4]] [0,0,1,1] 0 2 = ([[1],[2]], [0,0], [[3],[4]], [1,1]) := by
    norm_num [splitData, List.filter, List.getD]
  show buildTree (1 + 1) [[1],[2],[3],[4]] [0,0,1,1]
    = some (Node.internal 0 2 (Node.leaf 0) (Node.leaf 1))
  simp only [buildTree, hip, Bool.false_eq_true, if_false, chooseBest_1234]
  norm_num
  rw [hsd]
  simp [show isPure ([0,0] : List ℤ) = true from by decide,
    show isPure ([1,1] : List ℤ) = true from by decide]

/-- Candidate enumeration of the two-row dataset `[[1],[2]]`. -/
theorem candidates_12 : candidates [[1],[2]] = [(0,1),(0,2)] := by
  have h : List.range (featureCount [[1],[2]]) = [0] := by
    norm_num [featureCount]
    decide
  norm_num [candidates, h, List.getD]

/-- Split of `[[1],[2]]`, labels `[0,1]`, at threshold 1. -/
theorem splitLabels_12_t1 : splitLabels [[1],[2]] [0,1] 0 1 = ([0], [1]) := by
  norm_num [splitLabels, List.filter, List.getD]

/-- Gain of the perfect split of `[0,1]`. -/
theorem gain_12_t1 : calculateInformationGain [0,1] [0] [1] = 1 := by
  unfold calculateInformationGain
  rw [entropy_01, entropy_0, entropy_1]
  norm_num

/-- The split search on `[[1],[2]]` with labels `[0,1]` selects feature 0,
threshold 1, gain 1. -/
theorem chooseBest_12 : chooseBest [[1],[2]] [0,1] = (0, 1, 1) := by
  have hsl2 : splitLabels [[1],[2]] [0,1] 0 2 = ([0,1], []) := by
    norm_num [splitLabels, List.filter, List.getD]
  unfold chooseBest
  rw [candidates_12]
  simp only [List.foldl_cons, List.foldl_nil, splitLabels_12_t1, hsl2, gain_12_t1,
    calculateInformationGain_all_left]
  norm_num

/-- Candidate enumeration of the tie dataset `[[5],[5]]`. -/
theorem candidates_55 : candidates [[5],[5]] = [(0,5),(0,5)] := by
  have h : List.range (featureCount [[5],[5]]) = [0] := by
    norm_num [featureCount]
    decide
  norm_num [candidates, h, List.getD]

/-- In the tie dataset every candidate sends both rows left, so its gain
is zero. -/
theorem gainAt_55 : gainAt [[5],[5]] [0,1] 0 5 = 0 := by
  have hsl : splitLabels [[5],[5]] [0,1] 0 5 = ([0,1], []) := by
    norm_num [splitLabels, List.filter, List.getD]
  unfold gainAt
  rw [hsl]
  exact calculateInformationGain_all_left [0,1]

/-- The single-row pure dataset builds a single leaf. -/
theorem buildTree_single : buildTree 1 [[1]] [5] = some (Node.leaf 5) := by
  have hp : isPure ([5] : List ℤ) = true := by decide
  show buildTree (0 + 1) [[1]] [5] = some (Node.leaf 5)
  rw [buildTree_pure 0 _ _ hp]
  rfl

/-- Claim C1: in `buildTree`'s exhaustive split search the candidate
thresholds are exactly the feature values of the current samples in
features-outer, samples-inner order (the list `candidates`), and the
selected `(feature, threshold)` pair is the earliest-enumerated candidate
achieving the maximum information gain — an incumbent is replaced only by
a strictly greater gain — while the `0.0` initialisation of the tracker
means a split is selected only when some candidate has gain strictly
greater than `0`; otherwise the `(-1, 0, 0)` sentinel survives. -/
theorem claim_C1_split_search (data : List (List ℝ)) (labels : List ℤ) :
    (chooseBest data labels = (-1, 0, 0)
        ∧ ∀ c ∈ candidates data, gainAt data labels c.1 c.2 ≤ 0)
    ∨ (∃ i : Fin (candidates data).length,
        chooseBest data labels =
          ((((candidates data).get i).1 : ℤ), ((candidates data).get i).2,
            gainAt data labels ((candidates data).get i).1 ((candidates data).get i).2)
        ∧ 0 < gainAt data labels ((candidates data).get i).1 ((candidates data).get i).2
        ∧ (∀ c ∈ candidates data,
            gainAt data labels c.1 c.2 ≤
              gainAt data labels ((candidates data).get i).1 ((candidates data).get i).2)
        ∧ ∀ j : Fin (candidates data).length, (j : ℕ) < (i : ℕ) →
            gainAt data labels ((candidates data).get j).1 ((candidates data).get j).2 <
              gainAt data labels ((candidates data).get i).1 ((candidates data).get i).2) :=
  chooseBest_cases data labels

/-- Claim C2: on a non-empty label list whose labels all equal the first
label, `buildTree` (hence `fit`) immediately returns the single leaf
carrying that label, and `predict` on that tree returns the label for
every sample. -/
theorem claim_C2_pure_leaf (data : List (List ℝ)) (labels : List ℤ) (l : ℤ) (fuel : ℕ)
    (h0 : labels.head? = some l) (hall : ∀ x ∈ labels, x = l) :
    fit (fuel + 1) data labels = some (Node.leaf l)
    ∧ ∀ sample : List ℝ, predict (Node.leaf l) sample = l := by
  rcases labels with _ | ⟨a, rest⟩
  · simp at h0
  · have hal : a = l := by simpa using h0
    have hp : isPure (a :: rest) = true := by
      rw [isPure_cons_iff]
      intro x hx
      rw [hall x (List.mem_cons_of_mem a hx), hal]
    constructor
    · show buildTree (fuel + 1) data (a :: rest) = some (Node.leaf l)
      rw [buildTree_pure fuel data (a :: rest) hp]
      simp [hal]
    · intro sample
      rfl

/-- Witness for claim C2 at a concrete pure dataset. -/
theorem claim_C2_witness :
    fit 1 [[1],[2]] [5,5] = some (Node.leaf 5) ∧ predict (Node.leaf 5) [9] = 5 :=
  ⟨(claim_C2_pure_leaf [[1],[2]] [5,5] 5 0 rfl (by decide)).1,
   (claim_C2_pure_leaf [[1],[2]] [5,5] 5 0 rfl (by decide)).2 [9]⟩

/-- Counterexample to claim C3 as stated: there is no input at all —
in particular none satisfying `fit`'s precondition — on which the winning
threshold leaves the right partition empty, because a candidate with an
empty right partition keeps the whole label list on the left and therefore
has gain exactly `0`, which never beats the strictly-positive requirement
of the tracker. -/
theorem claim_C3_counterexample :
    ¬ ∃ (data : List (List ℝ)) (labels : List ℤ),
        data ≠ [] ∧ data.length = labels.length
        ∧ (chooseBest data labels).1 ≠ -1
        ∧ (splitLabels data labels (chooseBest data labels).1.toNat
            (chooseBest data labels).2.1).2 = [] := by
  rintro ⟨data, labels, -, hlen, hsel, hnil⟩
  exact (selected_parts_ne_nil (le_of_eq hlen.symm) hsel).2 hnil

/-- Claim C3, amended: whenever the split search selects a candidate, both
partitions of the selected split are non-empty, so `buildTree` is never
invoked recursively on an empty dataset and never reaches the undefined
`labels[0]` read through this path. -/
theorem claim_C3_amended (data : List (List ℝ)) (labels : List ℤ)
    (hlen : data.length = labels.length)
    (hsel : (chooseBest data labels).1 ≠ -1) :
    (splitLabels data labels (chooseBest data labels).1.toNat (chooseBest data labels).2.1).1 ≠ []
    ∧ (splitLabels data labels (chooseBest data labels).1.toNat (chooseBest data labels).2.1).2 ≠ [] :=
  selected_parts_ne_nil (le_of_eq hlen.symm) hsel

/-- Witness for the amended claim C3 at a concrete separable dataset. -/
theorem claim_C3_witness :
    (splitLabels [[1],[2]] [0,1] (chooseBest [[1],[2]] [0,1]).1.toNat
        (chooseBest [[1],[2]] [0,1]).2.1).1 ≠ []
    ∧ (splitLabels [[1],[2]] [0,1] (chooseBest [[1],[2]] [0,1]).1.toNat
        (chooseBest [[1],[2]] [0,1]).2.1).2 ≠ [] :=
  claim_C3_amended [[1],[2]] [0,1] (by decide)
    (by rw [chooseBest_12]; decide)

/-- Claim C4: on a non-empty, non-pure label list with no candidate of
strictly positive gain (so the best-feature sentinel `-1` survives),
`buildTree` returns a leaf carrying the majority label, and among the
labels tied at the maximal count the smallest label id is chosen. -/
theorem claim_C4_majority_leaf (data : List (List ℝ)) (labels : List ℤ) (fuel : ℕ)
    (hne : labels ≠ []) (hnp : isPure labels = false)
    (hno : ∀ c ∈ candidates data, gainAt data labels c.1 c.2 ≤ 0) :
    ∃ m, buildTree (fuel + 1) data labels = some (Node.leaf m)
      ∧ m ∈ labels
      ∧ (∀ l ∈ labels, labels.count l ≤ labels.count m)
      ∧ (∀ l ∈ labels, labels.count l = labels.count m → m ≤ l) := by
  rcases majorityLabel_spec labels hne with ⟨m, hm, hmem, hmax, hmin⟩
  refine ⟨m, ?_, hmem, hmax, hmin⟩
  rw [buildTree_no_gain fuel data labels hnp hno, hm]
  rfl

/-- Witness for claim C4 at the tie dataset, where every candidate has
gain `0`. -/
theorem claim_C4_witness :
    ∃ m, buildTree 1 [[5],[5]] [0,1] = some (Node.leaf m)
      ∧ m ∈ ([0,1] : List ℤ)
      ∧ (∀ l ∈ ([0,1] : List ℤ), ([0,1] : List ℤ).count l ≤ ([0,1] : List ℤ).count m)
      ∧ (∀ l ∈ ([0,1] : List ℤ), ([0,1] : List ℤ).count l = ([0,1] : List ℤ).count m → m ≤ l) := by
  refine claim_C4_majority_leaf [[5],[5]] [0,1] 0 (by decide) (by decide) ?_
  intro c hc
  rw [candidates_55] at hc
  have hcc : c = ((0:ℕ), (5:ℝ)) := by
    rcases List.mem_cons.mp hc with h | h
    · exact h
    · simpa using h
  subst hcc
  show gainAt [[5],[5]] [0,1] 0 5 ≤ 0
  rw [gainAt_55]

/-- Claim C5: the source's iteratively computed entropy agrees with the
spec's summation formula over the observed classes, the information gain
is the parent entropy minus the size-weighted child entropies, the entropy
of a single-class list is exactly `0`, and the entropy of a perfectly
balanced two-class list is exactly `1`. -/
theorem claim_C5_entropy_gain :
    (∀ labels : List ℤ, calculateEntropy labels = specEntropy labels)
    ∧ (∀ parentLabels leftLabels rightLabels : List ℤ,
        calculateInformationGain parentLabels leftLabels rightLabels
          = specEntropy parentLabels
            - ((leftLabels.length : ℝ) / (parentLabels.length : ℝ)) * specEntropy leftLabels
            - ((rightLabels.length : ℝ) / (parentLabels.length : ℝ)) * specEntropy rightLabels)
    ∧ (∀ (l : ℤ) (n : ℕ), 0 < n → calculateEntropy (List.replicate n l) = 0)
    ∧ (∀ (a b : ℤ) (n : ℕ), a ≠ b → 0 < n →
        calculateEntropy (List.replicate n a ++ List.replicate n b) = 1) := by
  refine ⟨calculateEntropy_eq_specEntropy, ?_, calculateEntropy_replicate, calculateEntropy_balanced⟩
  intro p l r
  unfold calculateInformationGain
  rw [calculateEntropy_eq_specEntropy p, calculateEntropy_eq_specEntropy l,
    calculateEntropy_eq_specEntropy r]
  ring

/-- Witness for claim C5: a pure list of three labels has entropy `0` and
a balanced two-class list of four labels has entropy `1`. -/
theorem claim_C5_witness :
    calculateEntropy (List.replicate 3 (7:ℤ)) = 0
    ∧ calculateEntropy (List.replicate 2 (0:ℤ) ++ List.replicate 2 (1:ℤ)) = 1 :=
  ⟨claim_C5_entropy_gain.2.2.1 7 3 (by norm_num),
   claim_C5_entropy_gain.2.2.2 0 1 2 (by decide) (by norm_num)⟩

/-- Claim C6: `predict` walks from the root, descending left exactly when
`sample[featureIndex] <= threshold`, and the label of the first leaf
reached is returned after at most depth-of-tree threshold comparisons:
with any comparison budget at least the depth, the instrumented traversal
`predictSteps` completes and agrees with `predict`. -/
theorem claim_C6_predict_descends (root : Node) (sample : List ℝ) (n : ℕ)
    (h : depth root ≤ n) :
    predictSteps n root sample = some (predict root sample) :=
  predictSteps_of_depth_le root n h sample

/-- Witness for claim C6 at a depth-1 tree. -/
theorem claim_C6_witness :
    predictSteps 1 (Node.internal 0 2 (Node.leaf 0) (Node.leaf 1)) [1.5]
      = some (predict (Node.internal 0 2 (Node.leaf 0) (Node.leaf 1)) [1.5]) :=
  claim_C6_predict_descends (Node.internal 0 2 (Node.leaf 0) (Node.leaf 1)) [1.5] 1
    (by norm_num [depth])

/-- Claim C7: on the boundary scenario `data = [[1],[2],[3],[4]]`,
`labels = [0,0,1,1]`, `fit` builds a root internal node testing feature 0
against threshold 2 with leaf children 0 and 1, and the resulting tree
predicts 0 for `[1.5]` and 1 for `[3.5]`. -/
theorem claim_C7_boundary_scenario :
    fit 2 [[1],[2],[3],[4]] [0,0,1,1] = some (Node.internal 0 2 (Node.leaf 0) (Node.leaf 1))
    ∧ predict (Node.internal 0 2 (Node.leaf 0) (Node.leaf 1)) [1.5] = 0
    ∧ predict (Node.internal 0 2 (Node.leaf 0) (Node.leaf 1)) [3.5] = 1 := by
  refine ⟨buildTree_1234, ?_, ?_⟩ <;> norm_num [predict, predictRecursive, List.getD]

/-- Counterexample to claim C8 as stated: the tie dataset `[[5],[5]]` with
labels `[0,1]` is non-empty, rectangular and carries two distinct labels,
yet no candidate `(feature, threshold)` pair has strictly positive gain —
every candidate threshold is `5`, which sends both rows left. -/
theorem claim_C8_counterexample :
    (∃ a ∈ ([0,1] : List ℤ), ∃ b ∈ ([0,1] : List ℤ), a ≠ b)
    ∧ ([[5],[5]] : List (List ℝ)) ≠ []
    ∧ ∀ c ∈ candidates [[5],[5]], ¬ (0 < gainAt [[5],[5]] [0,1] c.1 c.2) := by
  refine ⟨⟨0, by decide, 1, by decide, by decide⟩, by simp, ?_⟩
  intro c hc
  rw [candidates_55] at hc
  have hcc : c = ((0:ℕ), (5:ℝ)) := by
    rcases List.mem_cons.mp hc with h | h
    · exact h
    · simpa using h
  subst hcc
  show ¬ (0 < gainAt [[5],[5]] [0,1] 0 5)
  rw [gainAt_55]
  norm_num

/-- Claim C8, amended: for a label list containing two distinct labels,
either some candidate has strictly positive gain, or no candidate does and
the root collapses to a leaf carrying the majority label. -/
theorem claim_C8_amended (data : List (List ℝ)) (labels : List ℤ) (fuel : ℕ)
    (hd : ∃ a ∈ labels, ∃ b ∈ labels, a ≠ b) :
    (∃ c ∈ candidates data, 0 < gainAt data labels c.1 c.2)
    ∨ ∃ m, buildTree (fuel + 1) data labels = some (Node.leaf m)
        ∧ majorityLabel labels = some m := by
  by_cases hex : ∃ c ∈ candidates data, 0 < gainAt data labels c.1 c.2
  · exact Or.inl hex
  · right
    rcases hd with ⟨a, ha, b, hb, hab⟩
    have hne : labels ≠ [] := by
      intro h
      rw [h] at ha
      simp at ha
    have hnp : isPure labels = false := isPure_eq_false ha hb hab
    have hno : ∀ c ∈ candidates data, gainAt data labels c.1 c.2 ≤ 0 := by
      intro c hc
      by_contra hgt
      exact hex ⟨c, hc, lt_of_not_le hgt⟩
    rcases majorityLabel_spec labels hne with ⟨m, hm, _, _, _⟩
    refine ⟨m, ?_, hm⟩
    rw [buildTree_no_gain fuel data labels hnp hno, hm]
    rfl

/-- Witness for the amended claim C8 at the tie dataset. -/
theorem claim_C8_witness :
    (∃ c ∈ candidates [[5],[5]], 0 < gainAt [[5],[5]] [0,1] c.1 c.2)
    ∨ ∃ m, buildTree 1 [[5],[5]] [0,1] = some (Node.leaf m)
        ∧ majorityLabel [0,1] = some m :=
  claim_C8_amended [[5],[5]] [0,1] 0 ⟨0, by decide, 1, by decide, by decide⟩

/-- Claim C9: training is deterministic — two `fit` calls on the same
dataset yield trees whose predictions agree on every sample.  In this
functional embedding the result of `fit` is a function of its input, so
two runs produce equal trees. -/
theorem claim_C9_deterministic (fuel : ℕ) (data : List (List ℝ)) (labels : List ℤ)
    (t1 t2 : Node) (h1 : fit fuel data labels = some t1)
    (h2 : fit fuel data labels = some t2) (sample : List ℝ) :
    predict t1 sample = predict t2 sample := by
  have ht : t1 = t2 := Option.some.inj (h1.symm.trans h2)
  rw [ht]

/-- Witness for claim C9 at a concrete one-row dataset. -/
theorem claim_C9_witness : predict (Node.leaf 5) [3] = predict (Node.leaf 5) [3] :=
  claim_C9_deterministic 1 [[1]] [5] (Node.leaf 5) (Node.leaf 5)
    buildTree_single buildTree_single [3]

/-- Claim C10: under `fit`'s precondition (non-empty dataset with a
parallel label list) and sufficient fuel, `buildTree` returns a tree.  In
this embedding `Node` is an inductive type whose internal constructor
carries both children, so the returned tree is by construction a finite
strict binary tree on which the total function `predictRecursive` never
follows a missing child; the substantive content is that construction
terminates and every recursive call is fed non-empty partitions. -/
theorem claim_C10_wellformed (data : List (List ℝ)) (labels : List ℤ) (fuel : ℕ)
    (hlen : data.length = labels.length) (hne : labels ≠ []) (hfuel : data.length < fuel) :
    ∃ t, fit fuel data labels = some t :=
  buildTree_total fuel data labels hlen hne hfuel

/-- Witness for claim C10 at a concrete two-row dataset. -/
theorem claim_C10_witness : ∃ t, fit 3 [[1],[2]] [0,1] = some t :=
  claim_C10_wellformed [[1],[2]] [0,1] 3 (by decide) (by decide) (by decide)
